import Mathlib

/-!
Verification of the `visual` visualizer runtime (Go) against its
natural-language specification, via a shallow embedding in Lean 4.

The embedding follows the source files:
  * `visualizer.go`  — scene-sequence operations (`PushActors`, `PopActor`,
    `RemoveActor`, and the HUD analogues), the frame scheduler
    (`_NextFrame`, `_RunEventLoop`, `_RunLazyInit`), `Close`, `Resume`,
    and the mutex discipline of `_Update` / `_Draw`.
  * `super/fpschk.go` — the FPS watch (`Poll`, `GetFPS`).
Components of the repository whose sources are not available (the camera
`super.Camera` and the delta-time watch `super.DtWatch`) are modelled from
the specification and are marked as such in their doc comments.

The file is organised as: all definitions first, then helper lemmas, then
one theorem per specification claim.
-/

namespace Visual

/-! ## Scene sequences (visualizer.go)

Actors are identified by reference identity in the source; here a scene
sequence is a `List α` over a type `α` with decidable equality, and both
the world-actor list and the HUD list are instances of the same operations
(the Go code of `RemoveHUD` / `PopHUD` / `PushHUDs` is the letter-for-letter
HUD copy of `RemoveActor` / `PopActor` / `PushActors`). -/

/-- Embedding of `PushActors` / `PushHUDs`: append the new elements at the
end of the sequence (Go `v.actors = append(v.actors, actors...)`). -/
def PushActors {α : Type} (l news : List α) : List α :=
  l ++ news

/-- Embedding of `RemoveActor` / `RemoveHUD`: scan left-to-right, splice
out the first element equal to the argument and return `true`; if no
element matches, return the list unchanged and `false`
(Go `for i, a := range v.actors { if a == x { v.actors = append(v.actors[:i], v.actors[i+1:]...); return true } }; return false`). -/
def RemoveActor {α : Type} [DecidableEq α] : List α → α → List α × Bool
  | [], _ => ([], false)
  | a :: t, x =>
    if a = x then (t, true)
    else
      let r := RemoveActor t x
      (a :: r.1, r.2)

/-- Embedding of `PopActor` / `PopHUD`: read the last element
(Go `pop := v.actors[len(v.actors)-1]`), shrink the sequence by one
(Go `v.actors = v.actors[:len(v.actors)-1]`) and return the element.
On an empty sequence the Go index expression `v.actors[-1]` panics at
run time (index out of range); the panic is modelled by `none`. -/
def PopActor {α : Type} (l : List α) : Option (α × List α) :=
  match l.getLast? with
  | none => none
  | some a => some (a, l.dropLast)

/-! ## FPS watch (super/fpschk.go)

The Go watch keeps `fps` (the published value) and `frames` (the
in-progress counter); `seccer` is a channel that ticks once per second.
A `Poll` call is embedded as a state transition taking a boolean `tick`
that is `true` exactly when the non-blocking `select` on `seccer`
receives, i.e. when the watch's one-second ticker has fired. -/

/-- State of `super.FPSWatch`: the published FPS value and the in-progress
frame counter (the `fps` and `frames` fields of the Go struct). -/
structure FPSWatch where
  fps : Nat
  frames : Nat
deriving DecidableEq, Repr

/-- Embedding of `FPSWatch.Poll`: `watch.frames++`; then, if the second
ticker fired, `watch.fps = watch.frames; watch.frames = 0` (the spawned
`_Update` goroutine only re-renders text primitives and is omitted). -/
def Poll (w : FPSWatch) (tick : Bool) : FPSWatch :=
  let w1 : FPSWatch := { w with frames := w.frames + 1 }
  if tick then { fps := w1.frames, frames := 0 } else w1

/-- Embedding of `FPSWatch.GetFPS`: returns the published `fps` field. -/
def GetFPS (w : FPSWatch) : Nat := w.fps

/-- A sequence of `Poll` calls, one per frame, each with its ticker bit. -/
def PollSeq (w : FPSWatch) : List Bool → FPSWatch
  | [] => w
  | t :: ts => PollSeq (Poll w t) ts

/-! ## Camera (modelled from the spec)

The camera source (`super.Camera`, package `super`) is not among the
available source files — `visualizer.go` only calls it. -/

/-- Modelled from the spec: the state of `super.Camera` (missing source
`super/camera.go`). Per spec §3 the camera owns a 2D position, a zoom
scalar, a rotation angle and the viewport bound. Real-valued state is
embedded over `ℚ`; the rotation angle is represented by its cosine/sine
pair `(rotC, rotS)` subject to `rotC ^ 2 + rotS ^ 2 = 1`. The viewport
bound is kept as its width and height (the rectangle is `(0,0)-(w,h)`,
as built by `pixel.R(0, 0, width, height)` at the call sites). -/
structure Camera where
  posX : ℚ
  posY : ℚ
  zoom : ℚ
  rotC : ℚ
  rotS : ℚ
  boundW : ℚ
  boundH : ℚ
deriving DecidableEq, Repr

/-- Center of the camera's viewport rectangle `(0,0)-(boundW,boundH)`. -/
def Camera.center (cam : Camera) : ℚ × ℚ :=
  (cam.boundW / 2, cam.boundH / 2)

/-- Modelled from the spec: `Camera.Transform` (missing source
`super/camera.go`). Per spec §3 the forward transform is the composition
`translate(-position) → rotate(-angle) → scale(zoom) →
translate(viewport-center)`; rotation by `-angle` maps `(x, y)` to
`(c*x + s*y, -s*x + c*y)` where `(c, s)` is the angle's cosine/sine. -/
def Transform (cam : Camera) (w : ℚ × ℚ) : ℚ × ℚ :=
  let dx := w.1 - cam.posX
  let dy := w.2 - cam.posY
  let rx := cam.rotC * dx + cam.rotS * dy
  let ry := -cam.rotS * dx + cam.rotC * dy
  (cam.zoom * rx + (Camera.center cam).1, cam.zoom * ry + (Camera.center cam).2)

/-- Modelled from the spec: `Camera.Unproject` (missing source
`super/camera.go`). Per spec §4.2 it maps a screen-space coordinate back
to world space by inverting `Transform` step by step: translate by minus
the viewport center, un-scale by the zoom, rotate by `+angle`, translate
by the position. -/
def Unproject (cam : Camera) (p : ℚ × ℚ) : ℚ × ℚ :=
  let sx := (p.1 - (Camera.center cam).1) / cam.zoom
  let sy := (p.2 - (Camera.center cam).2) / cam.zoom
  (cam.rotC * sx - cam.rotS * sy + cam.posX,
   cam.rotS * sx + cam.rotC * sy + cam.posY)

/-! ## Frame scheduler traces (visualizer.go)

`_RunEventLoop` is a loop `for v.window.Closed() != true { dt := v.dtw.Dt();
v._HandleEvents(dt); v._NextFrame(dt) }`. Each iteration is embedded as the
list of the externally visible steps it performs, tagged with the iteration
index; the whole loop as the concatenation of its iterations. -/

/-- One observable step of the run loop, tagged with its iteration index:
polling the delta-time watch, handling events, the update pass
(`_Update`), polling the FPS watch, clearing the canvas, the draw pass
(`_Draw`), updating the title bar, presenting (`window.Update()`), and
blocking on the vsync channel. -/
inductive Ev : Type
  | dtPoll (i : Nat)
  | handleEvents (i : Nat)
  | update (i : Nat)
  | fpsPoll (i : Nat)
  | clear (i : Nat)
  | draw (i : Nat)
  | setTitle (i : Nat)
  | present (i : Nat)
  | vsyncWait (i : Nat)
deriving DecidableEq, Repr

/-- Iteration index carried by a run-loop step. -/
def evFrame : Ev → Nat
  | .dtPoll i => i
  | .handleEvents i => i
  | .update i => i
  | .fpsPoll i => i
  | .clear i => i
  | .draw i => i
  | .setTitle i => i
  | .present i => i
  | .vsyncWait i => i

/-- Embedding of `_NextFrame` for iteration `i`: `_Update(dt)`;
`fpsw.Poll()`; `window.Clear(bg)`; `_Draw()`; if the title changed,
`window.SetTitle(...)`; `window.Update()` (present); `<-v.vsync`.
`tc` is the value of `v.isTitleChanged` at that point. -/
def NextFrameEvents (tc : Bool) (i : Nat) : List Ev :=
  [.update i, .fpsPoll i, .clear i, .draw i]
    ++ (if tc then [.setTitle i] else [])
    ++ [.present i, .vsyncWait i]

/-- Embedding of one `_RunEventLoop` iteration `i`: `dt := v.dtw.Dt()`;
`v._HandleEvents(dt)`; `v._NextFrame(dt)`. -/
def FrameEvents (tc : Bool) (i : Nat) : List Ev :=
  [.dtPoll i, .handleEvents i] ++ NextFrameEvents tc i

/-- Trace of `n` consecutive run-loop iterations starting at iteration
`k`; `tc i` is whether the title was marked changed during iteration `i`. -/
def RunEventLoopFrom (tc : Nat → Bool) : Nat → Nat → List Ev
  | _, 0 => []
  | k, n + 1 => FrameEvents (tc k) k ++ RunEventLoopFrom tc (k + 1) n

/-- Trace of the first `n` iterations of `_RunEventLoop`. -/
def RunEventLoopTrace (tc : Nat → Bool) (n : Nat) : List Ev :=
  RunEventLoopFrom tc 0 n

/-! ## Cooperative close (visualizer.go)

`Close()` is `v.window.SetClosed(true)`: it only sets the window's closed
flag. The run loop reads the flag solely in its `for` condition
(`v.window.Closed() != true`), i.e. at the top of each iteration. -/

/-- The window state `Close` acts on: the closed flag plus the other
window fields `Close` must leave alone (represented by the title). -/
structure Window where
  closed : Bool
  title : String
deriving DecidableEq, Repr

/-- Embedding of `Visualizer.Close`: `v.window.SetClosed(true)`. -/
def Close (w : Window) : Window :=
  { w with closed := true }

/-- Given `s i = true` iff a `SetClosed(true)` was issued at some point
during iteration `i` (crucially, after that iteration's top-of-loop
check), `FlagSet s k` is the closed flag as observed at the top of
iteration `k`: set iff some earlier iteration saw a close. -/
def FlagSet (s : Nat → Bool) : Nat → Bool
  | 0 => false
  | k + 1 => FlagSet s k || s k

/-- The run loop with its top-of-iteration flag check: starting at
iteration `k` with `fuel` iterations of budget, stop if the flag is
observed set, otherwise run the full iteration and continue. -/
def RunClosableFrom (tc s : Nat → Bool) : Nat → Nat → List Ev
  | _, 0 => []
  | k, fuel + 1 =>
    if FlagSet s k then []
    else FrameEvents (tc k) k ++ RunClosableFrom tc s (k + 1) fuel

/-- Trace of the closable run loop from iteration `0`. -/
def RunClosableTrace (tc s : Nat → Bool) (fuel : Nat) : List Ev :=
  RunClosableFrom tc s 0 fuel

/-! ## Ordering predicate on traces -/

/-- `Precedes l a b`: `a` occurs at some position strictly before some
occurrence of `b` in `l`. -/
def Precedes {α : Type} (l : List α) (a b : α) : Prop :=
  ∃ i j : Nat, i < j ∧ l[i]? = some a ∧ l[j]? = some b

/-! ## Update/draw pass traversal (visualizer.go)

`_Update` and `_Draw` each traverse the scene; the entities they visit are
embedded below, together with the pass-specific bookkeeping steps
(`camera.Update`, `SetMatrix`, the user callbacks), so that the visit
order of each pass can be extracted and compared. -/

/-- An entity visited by the update pass and by the draw pass: the `i`-th
user world actor (`v.actors[i]`), the default explosions actor
(`v.explosions`), the `j`-th user HUD (`v.huds[j]`), or the default
FPS-watch HUD (`v.fpsw`). -/
inductive Entity : Type
  | userActor (i : Nat)
  | explosions
  | userHud (j : Nat)
  | fpsWatch
deriving DecidableEq, Repr

/-- One step of `_Update`: the per-frame camera update, an entity's
`Update(dt)`, or the `onUpdated` callback. -/
inductive UpdEv : Type
  | cameraUpdate
  | visit (e : Entity)
  | onUpdatedCb
deriving DecidableEq, Repr

/-- One step of `_Draw`: installing the camera matrix, an entity's
`Draw(t)`, the `onDrawn` callback, or installing the identity (flat
screen) matrix. -/
inductive DrawEv : Type
  | setMatrixCamera
  | visit (e : Entity)
  | onDrawnCb
  | setMatrixIM
deriving DecidableEq, Repr

/-- Embedding of `_Update` with `nA` user actors and `nH` user HUDs:
`camera.Update(dt)`; all `v.actors[i].Update(dt)` in order;
`explosions.Update(dt)`; all `v.huds[j].Update(dt)` in order;
`fpsw.Update(dt)`; the `onUpdated` callback. -/
def UpdateTrace (nA nH : Nat) : List UpdEv :=
  [.cameraUpdate]
    ++ (List.range nA).map (fun i => .visit (.userActor i))
    ++ [.visit .explosions]
    ++ (List.range nH).map (fun j => .visit (.userHud j))
    ++ [.visit .fpsWatch]
    ++ [.onUpdatedCb]

/-- Embedding of `_Draw` with `nA` user actors and `nH` user HUDs:
`t.SetMatrix(camera.Transform())`; all `v.actors[i].Draw(t)` in order;
`explosions.Draw(t)`; the `onDrawn` callback; `t.SetMatrix(pixel.IM)`;
all `v.huds[j].Draw(t)` in order; `fpsw.Draw(t)`. -/
def DrawTrace (nA nH : Nat) : List DrawEv :=
  [.setMatrixCamera]
    ++ (List.range nA).map (fun i => .visit (.userActor i))
    ++ [.visit .explosions]
    ++ [.onDrawnCb]
    ++ [.setMatrixIM]
    ++ (List.range nH).map (fun j => .visit (.userHud j))
    ++ [.visit .fpsWatch]

/-- Entities visited by an update pass, in visit order. -/
def updVisits (l : List UpdEv) : List Entity :=
  l.filterMap fun e =>
    match e with
    | .visit x => some x
    | _ => none

/-- Entities visited by a draw pass, in visit order. -/
def drawVisits (l : List DrawEv) : List Entity :=
  l.filterMap fun e =>
    match e with
    | .visit x => some x
    | _ => none

/-- `True` for world-space entities (drawn under the camera matrix),
`False` for screen-space HUD entities. -/
def Entity.isWorld : Entity → Bool
  | .userActor _ => true
  | .explosions => true
  | .userHud _ => false
  | .fpsWatch => false

/-- The traversal order common to `_Update` and `_Draw`: user world
actors in insertion order, the default explosions actor, user HUDs in
insertion order, the default FPS-watch HUD. -/
def VisitOrder (nA nH : Nat) : List Entity :=
  (List.range nA).map .userActor
    ++ [.explosions]
    ++ (List.range nH).map .userHud
    ++ [.fpsWatch]

/-! ## Lazy initialization (visualizer.go, `_RunLazyInit`) -/

/-- One observable step of `_RunLazyInit` after the window and camera come
to exist: starting the two timing watches, presenting the placeholder
loading frame, the two warm-up `_NextFrame` calls, the initial
`_OnResize`, and the camera's `Zoom` / `Rotate` accumulation calls with
their arguments. -/
inductive LEv : Type
  | watchesStart
  | loadingFrame
  | warmupFrame (i : Nat)
  | resize
  | camZoom (z : ℚ)
  | camRotate (r : ℚ)
deriving DecidableEq, Repr

/-- Embedding of the tail of `_RunLazyInit`: `fpsw.Start(); dtw.Start()`;
the loading block (`Clear`, draw the "Loading..." text, `window.Update()`);
`_NextFrame(dtw.Dt())` twice; `_OnResize(winWidth, winHeight)`;
`camera.Zoom(initialZoomLevel)`; `camera.Rotate(initialRotateDegree)`. -/
def RunLazyInitTrace (z r : ℚ) : List LEv :=
  [.watchesStart, .loadingFrame, .warmupFrame 0, .warmupFrame 1,
   .resize, .camZoom z, .camRotate r]

/-- Arguments of the `Zoom` accumulation calls in a lazy-init trace,
in call order. -/
def zoomCalls (l : List LEv) : List ℚ :=
  l.filterMap fun e =>
    match e with
    | .camZoom z => some z
    | _ => none

/-- Arguments of the `Rotate` accumulation calls in a lazy-init trace,
in call order. -/
def rotateCalls (l : List LEv) : List ℚ :=
  l.filterMap fun e =>
    match e with
    | .camRotate r => some r
    | _ => none

/-- Whether a lazy-init step is one of the warm-up `_NextFrame` calls. -/
def isWarmup : LEv → Bool
  | .warmupFrame _ => true
  | _ => false

/-! ## Delta-time watch and Resume (visualizer.go, modelled watch)

The delta-time watch source (`super.DtWatch`) is not among the available
source files; `visualizer.go` only calls `Start`, `Dt` and
`GetTimeStarted`. -/

/-- Modelled from the spec: the state of `super.DtWatch` (missing source
in package `super`). Per spec §3 it holds the original start timestamp
and the last-poll timestamp. Timestamps are embedded as rationals. -/
structure DtWatch where
  timeStarted : ℚ
  last : ℚ
deriving DecidableEq, Repr

/-- Modelled from the spec: `DtWatch.Start` resets both timestamps to
"now". -/
def DtWatch.Start (now : ℚ) : DtWatch :=
  { timeStarted := now, last := now }

/-- Modelled from the spec: `DtWatch.Dt` returns the time elapsed since
the previous poll and advances the last-poll marker — each call consumes
the interval. -/
def DtWatch.Dt (w : DtWatch) (now : ℚ) : ℚ × DtWatch :=
  (now - w.last, { w with last := now })

/-- One observable step of `Resume`: the single `v.dtw.Dt()` poll and the
`onResumed` callback. -/
inductive REv : Type
  | dtPollR
  | onResumedCb
deriving DecidableEq, Repr

/-- Embedding of `Visualizer.Resume`: `v.dtw.Dt()`, then (if set) the
`onResumed` callback. -/
def ResumeTrace : List REv :=
  [.dtPollR, .onResumedCb]

/-- The delta-time value computed at the top of the first run-loop
iteration after a pause: `Resume` polls the watch at time `tResume`
(discarding the result), then the loop polls it at time `tNext`.
This composes `DtWatch.Dt` exactly as `Resume` and `_RunEventLoop` do. -/
def PauseResumeNextDt (w : DtWatch) (tResume tNext : ℚ) : ℚ :=
  let w1 := (w.Dt tResume).2
  (w1.Dt tNext).1

/-! ## Mutex discipline of one frame (visualizer.go)

`_Update` is `mutex.Lock(); ...; mutex.Unlock()` (by `defer`), `_Draw`
likewise; between them `_NextFrame` runs `fpsw.Poll()` and
`window.Clear(bg)` with the mutex released. An external `PushActors` call
is `mutex.Lock(); append; mutex.Unlock()`. The two threads' programs are
embedded as event lists; an execution is any interleaving of the two that
a mutex permits. -/

/-- The two threads of interest: the scheduler mainthread running
`_NextFrame`, and an external goroutine calling `PushActors`. -/
inductive Thread : Type
  | sched
  | ext
deriving DecidableEq, Repr

/-- One action of a thread: acquiring or releasing the single visualizer
mutex, or one of the payload steps of `_NextFrame` / `PushActors`. -/
inductive Act : Type
  | lockA
  | unlockA
  | updatePass
  | fpsPollA
  | clearA
  | drawPass
  | presentA
  | pushA
deriving DecidableEq, Repr

/-- An event is an action tagged with the thread performing it. -/
abbrev MEv : Type := Thread × Act

/-- Program order of the scheduler thread for one `_NextFrame` call
(title update elided as the flag is false here): `_Update` =
`Lock; camera+actors+huds update; Unlock`; then `fpsw.Poll()`;
`window.Clear(bg)`; `_Draw` = `Lock; draw all; Unlock`; then
`window.Update()` (present). -/
def SchedTrace : List MEv :=
  [(.sched, .lockA), (.sched, .updatePass), (.sched, .unlockA),
   (.sched, .fpsPollA), (.sched, .clearA),
   (.sched, .lockA), (.sched, .drawPass), (.sched, .unlockA),
   (.sched, .presentA)]

/-- Program order of an external `PushActors` call:
`mutex.Lock(); v.actors = append(...); mutex.Unlock()`. -/
def ExtTrace : List MEv :=
  [(.ext, .lockA), (.ext, .pushA), (.ext, .unlockA)]

/-- Whether a merged event sequence respects mutex semantics, starting
with `owner` holding the lock: a `lockA` can only be performed when the
mutex is free (Go `Lock` blocks otherwise, so such an order cannot
occur), and an `unlockA` only by the current owner. -/
def mutexValid : Option Thread → List MEv → Bool
  | _, [] => true
  | owner, (t, a) :: rest =>
    match a with
    | .lockA =>
      match owner with
      | none => mutexValid (some t) rest
      | some _ => false
    | .unlockA =>
      if owner = some t then mutexValid none rest else false
    | _ => mutexValid owner rest

/-- Fuel-driven worker for `interleavings` (structural recursion on the
fuel so that the kernel can evaluate it). -/
def interleavingsF {α : Type} : Nat → List α → List α → List (List α)
  | _, [], ys => [ys]
  | _, x :: xs, [] => [x :: xs]
  | 0, _ :: _, _ :: _ => []
  | f + 1, x :: xs, y :: ys =>
    (interleavingsF f xs (y :: ys)).map (fun l => x :: l)
      ++ (interleavingsF f (x :: xs) ys).map (fun l => y :: l)

/-- All interleavings of two event lists (each thread's program order is
preserved; steps of different threads may alternate arbitrarily). -/
def interleavings {α : Type} (xs ys : List α) : List (List α) :=
  interleavingsF (xs.length + ys.length) xs ys

/-- First position of an element in a list, if present. -/
def firstIdx {α : Type} [DecidableEq α] : List α → α → Option Nat
  | [], _ => none
  | a :: t, x =>
    if a = x then some 0
    else
      match firstIdx t x with
      | none => none
      | some n => some (n + 1)

/-- Whether the external `pushA` occurs strictly between the scheduler's
update pass and its draw pass in a merged trace. -/
def pushBetweenPasses (l : List MEv) : Bool :=
  match firstIdx l (.sched, .updatePass),
        firstIdx l (.ext, .pushA),
        firstIdx l (.sched, .drawPass) with
  | some i, some j, some k => decide (i < j) && decide (j < k)
  | _, _, _ => false

/-- Whether every `pushA` in a merged trace is performed while the mutex
is owned by the external thread itself (tracking ownership along the
trace from `owner`). -/
def pushUnderExtLock : Option Thread → List MEv → Bool
  | _, [] => true
  | owner, (t, a) :: rest =>
    match a with
    | .lockA => pushUnderExtLock (some t) rest
    | .unlockA => pushUnderExtLock none rest
    | .pushA => decide (owner = some t) && pushUnderExtLock owner rest
    | _ => pushUnderExtLock owner rest

/-- A concrete merged execution of `SchedTrace` and `ExtTrace`: the
scheduler finishes `_Update` and releases the mutex; the external
`PushActors` then acquires it, appends, and releases; the scheduler
continues with `fpsw.Poll()`, `window.Clear`, `_Draw` and present. -/
def CounterTrace : List MEv :=
  [(.sched, .lockA), (.sched, .updatePass), (.sched, .unlockA),
   (.ext, .lockA), (.ext, .pushA), (.ext, .unlockA),
   (.sched, .fpsPollA), (.sched, .clearA),
   (.sched, .lockA), (.sched, .drawPass), (.sched, .unlockA),
   (.sched, .presentA)]

/-! ## Helper lemmas -/

theorem precedes_append_left {α : Type} {l l2 : List α} {a b : α}
    (h : Precedes l a b) : Precedes (l ++ l2) a b := by
  obtain ⟨i, j, hij, ha, hb⟩ := h
  have hi : i < l.length := by
    by_contra hc
    rw [List.getElem?_eq_none (Nat.le_of_not_lt hc)] at ha
    exact Option.noConfusion ha
  have hj : j < l.length := by
    by_contra hc
    rw [List.getElem?_eq_none (Nat.le_of_not_lt hc)] at hb
    exact Option.noConfusion hb
  exact ⟨i, j, hij, by rw [List.getElem?_append_left hi]; exact ha,
    by rw [List.getElem?_append_left hj]; exact hb⟩

theorem precedes_append_right {α : Type} {l l2 : List α} {a b : α}
    (h : Precedes l2 a b) : Precedes (l ++ l2) a b := by
  obtain ⟨i, j, hij, ha, hb⟩ := h
  refine ⟨l.length + i, l.length + j, by omega, ?_, ?_⟩
  · rw [List.getElem?_append_right (by omega)]
    simpa using ha
  · rw [List.getElem?_append_right (by omega)]
    simpa using hb

theorem precedes_of_mem_mem {α : Type} {l l2 : List α} {a b : α}
    (ha : a ∈ l) (hb : b ∈ l2) : Precedes (l ++ l2) a b := by
  obtain ⟨i, hi, hia⟩ := List.getElem_of_mem ha
  obtain ⟨j, hj, hjb⟩ := List.getElem_of_mem hb
  refine ⟨i, l.length + j, by omega, ?_, ?_⟩
  · rw [List.getElem?_append_left hi, List.getElem?_eq_getElem hi, hia]
  · rw [List.getElem?_append_right (by omega)]
    have h : l.length + j - l.length = j := by omega
    rw [h, List.getElem?_eq_getElem hj, hjb]

theorem precedes_map_range {α : Type} (f : Nat → α) {i j n : Nat}
    (hij : i < j) (hj : j < n) :
    Precedes ((List.range n).map f) (f i) (f j) := by
  refine ⟨i, j, hij, ?_, ?_⟩
  · rw [List.getElem?_map, List.getElem?_range (by omega)]
    rfl
  · rw [List.getElem?_map, List.getElem?_range hj]
    rfl

theorem PollSeq_append (w : FPSWatch) (l1 l2 : List Bool) :
    PollSeq w (l1 ++ l2) = PollSeq (PollSeq w l1) l2 := by
  induction l1 generalizing w with
  | nil => simp [PollSeq]
  | cons t ts ih => simp [PollSeq, ih]

theorem PollSeq_replicate_false (w : FPSWatch) (n : Nat) :
    PollSeq w (List.replicate n false) = { fps := w.fps, frames := w.frames + n } := by
  induction n generalizing w with
  | zero => simp [PollSeq]
  | succ m ih =>
    simp only [List.replicate_succ, PollSeq, Poll]
    rw [ih]
    simp
    omega

theorem RemoveActor_found {α : Type} [DecidableEq α] (l : List α) (x : α) :
    (RemoveActor l x).2 = true ↔ x ∈ l := by
  induction l with
  | nil => simp [RemoveActor]
  | cons a t ih =>
    by_cases h : a = x
    · subst h; simp [RemoveActor]
    · simp [RemoveActor, h, ih, Ne.symm h]

theorem RemoveActor_notfound {α : Type} [DecidableEq α] (l : List α) (x : α) :
    (RemoveActor l x).2 = false → (RemoveActor l x).1 = l := by
  induction l with
  | nil => simp [RemoveActor]
  | cons a t ih =>
    by_cases h : a = x
    · subst h; simp [RemoveActor]
    · simp [RemoveActor, h]
      exact ih

theorem RemoveActor_splice {α : Type} [DecidableEq α] (l : List α) (x : α) :
    x ∈ l → ∃ l1 l2, l = l1 ++ x :: l2 ∧ x ∉ l1 ∧ (RemoveActor l x).1 = l1 ++ l2 := by
  induction l with
  | nil => simp
  | cons a t ih =>
    intro hmem
    by_cases h : a = x
    · subst h
      exact ⟨[], t, rfl, by simp, by simp [RemoveActor]⟩
    · have hx : x ∈ t := by
        rcases List.mem_cons.mp hmem with h1 | h1
        · exact absurd h1.symm h
        · exact h1
      obtain ⟨l1, l2, heq, hnot, hrm⟩ := ih hx
      exact ⟨a :: l1, l2, by simp [heq], by simp [hnot, Ne.symm h],
        by simp [RemoveActor, h, hrm]⟩

theorem RemoveActor_middle {α : Type} [DecidableEq α] (A B C : α) :
    RemoveActor [A, B, C] B = ([A, C], true) := by
  by_cases h : A = B
  · subst h; simp [RemoveActor]
  · simp [RemoveActor, h]

theorem runFrom_split (tc : Nat → Bool) (a : Nat) :
    ∀ (k b : Nat), RunEventLoopFrom tc k (a + b)
      = RunEventLoopFrom tc k a ++ RunEventLoopFrom tc (k + a) b := by
  induction a with
  | zero => intro k b; simp [RunEventLoopFrom]
  | succ m ih =>
    intro k b
    have h : m + 1 + b = (m + b) + 1 := by omega
    rw [h]
    show FrameEvents (tc k) k ++ RunEventLoopFrom tc (k + 1) (m + b) = _
    rw [ih (k + 1) b]
    simp [RunEventLoopFrom]
    have h2 : k + 1 + m = k + (m + 1) := by omega
    rw [h2]

theorem frame_update_draw (b : Bool) (i : Nat) :
    Precedes (FrameEvents b i) (.update i) (.draw i) := by
  cases b <;> exact ⟨2, 5, by omega, rfl, rfl⟩

theorem frame_draw_present (b : Bool) (i : Nat) :
    Precedes (FrameEvents b i) (.draw i) (.present i) := by
  cases b
  · exact ⟨5, 6, by omega, rfl, rfl⟩
  · exact ⟨5, 7, by omega, rfl, rfl⟩

theorem mem_frame_present (b : Bool) (i : Nat) :
    Ev.present i ∈ FrameEvents b i := by
  cases b <;> simp [FrameEvents, NextFrameEvents]

theorem mem_frame_update (b : Bool) (i : Nat) :
    Ev.update i ∈ FrameEvents b i := by
  cases b <;> simp [FrameEvents, NextFrameEvents]

theorem evFrame_of_mem_frame {e : Ev} {b : Bool} {i : Nat}
    (h : e ∈ FrameEvents b i) : evFrame e = i := by
  cases b
  · simp [FrameEvents, NextFrameEvents] at h
    rcases h with rfl | rfl | rfl | rfl | rfl | rfl | rfl | rfl <;> rfl
  · simp [FrameEvents, NextFrameEvents] at h
    rcases h with rfl | rfl | rfl | rfl | rfl | rfl | rfl | rfl | rfl <;> rfl

theorem evFrame_lt_of_mem_runFrom {tc : Nat → Bool} {e : Ev} :
    ∀ {m j : Nat}, e ∈ RunEventLoopFrom tc j m →
      j ≤ evFrame e ∧ evFrame e < j + m := by
  intro m
  induction m with
  | zero => intro j h; simp [RunEventLoopFrom] at h
  | succ d ih =>
    intro j h
    simp only [RunEventLoopFrom, List.mem_append] at h
    rcases h with h | h
    · have h2 := evFrame_of_mem_frame h
      omega
    · have h2 := ih h
      omega

theorem flagSet_false_of_prev {s : Nat → Bool} {k : Nat}
    (hprev : ∀ i, i < k → s i = false) : ∀ j, j ≤ k → FlagSet s j = false := by
  intro j
  induction j with
  | zero => intro _; rfl
  | succ m ih =>
    intro hm
    have h1 : FlagSet s m = false := ih (by omega)
    have h2 : s m = false := hprev m (by omega)
    simp [FlagSet, h1, h2]

theorem runClosable_eq {tc s : Nat → Bool} {k : Nat}
    (hprev : ∀ i, i < k → s i = false) (hk : s k = true) :
    ∀ (fuel j : Nat), j ≤ k → k < j + fuel →
      RunClosableFrom tc s j fuel = RunEventLoopFrom tc j (k + 1 - j) := by
  intro fuel
  induction fuel with
  | zero => intro j h1 h2; omega
  | succ f ih =>
    intro j h1 h2
    have hflag : FlagSet s j = false := flagSet_false_of_prev hprev j h1
    rw [RunClosableFrom, hflag]
    simp only [Bool.false_eq_true, if_false]
    by_cases hjk : j = k
    · subst hjk
      have hstop : RunClosableFrom tc s (j + 1) f = [] := by
        have hflag2 : FlagSet s (j + 1) = true := by
          simp [FlagSet, hk]
        cases f with
        | zero => rfl
        | succ f2 => rw [RunClosableFrom, hflag2]; rfl
      rw [hstop]
      have h : j + 1 - j = 1 := by omega
      rw [h]
      simp [RunEventLoopFrom]
    · have h3 : j + 1 ≤ k := by omega
      rw [ih (j + 1) h3 (by omega)]
      have h : k + 1 - j = (k + 1 - (j + 1)) + 1 := by omega
      rw [h]
      rfl

theorem mem_loop_of_mem_frame {tc : Nat → Bool} {e : Ev} {k : Nat}
    (he : e ∈ FrameEvents (tc k) k) : e ∈ RunEventLoopTrace tc (k + 1) := by
  have hsplit : RunEventLoopTrace tc (k + 1)
      = RunEventLoopFrom tc 0 k ++ RunEventLoopFrom tc k 1 := by
    rw [RunEventLoopTrace, runFrom_split tc k 0 1]
    simp
  rw [hsplit]
  apply List.mem_append_right
  simp only [RunEventLoopFrom, List.append_nil]
  exact he

theorem filterMap_visit_upd (f : Nat → Entity) (l : List Nat) :
    List.filterMap ((fun e =>
      match e with
      | UpdEv.visit x => some x
      | _ => none) ∘ fun i => UpdEv.visit (f i)) l = l.map f := by
  induction l with
  | nil => rfl
  | cons a t ih => simp_all [List.filterMap_cons, Function.comp]

theorem filterMap_visit_draw (f : Nat → Entity) (l : List Nat) :
    List.filterMap ((fun e =>
      match e with
      | DrawEv.visit x => some x
      | _ => none) ∘ fun i => DrawEv.visit (f i)) l = l.map f := by
  induction l with
  | nil => rfl
  | cons a t ih => simp_all [List.filterMap_cons, Function.comp]

theorem updVisits_eq (nA nH : Nat) :
    updVisits (UpdateTrace nA nH) = VisitOrder nA nH := by
  simp [updVisits, UpdateTrace, VisitOrder, List.filterMap_append,
    filterMap_visit_upd]

theorem drawVisits_eq (nA nH : Nat) :
    drawVisits (DrawTrace nA nH) = VisitOrder nA nH := by
  simp [drawVisits, DrawTrace, VisitOrder, List.filterMap_append,
    filterMap_visit_draw]

theorem visitOrder_split (nA nH : Nat) :
    VisitOrder nA nH
      = ((List.range nA).map .userActor ++ [.explosions])
        ++ ((List.range nH).map .userHud ++ [.fpsWatch]) := by
  simp [VisitOrder]

/-! ## Claim theorems -/

/-- Claim C1. For every camera state whose rotation cosine/sine pair is on
the unit circle and whose zoom is nonzero, and for every screen-space
point `p`, the forward transform applied to `Unproject p` recovers `p`
exactly: `Unproject` is the exact inverse of `Transform` composed with the
viewport mapping. (Camera modelled from the spec; see `Transform`.) -/
theorem Transform_Unproject_roundtrip (cam : Camera) (p : ℚ × ℚ)
    (hrot : cam.rotC ^ 2 + cam.rotS ^ 2 = 1) (hz : cam.zoom ≠ 0) :
    Transform cam (Unproject cam p) = p := by
  obtain ⟨px, py⟩ := p
  obtain ⟨x, y, z, c, s, bw, bh⟩ := cam
  simp only [Transform, Unproject, Camera.center, Prod.mk.injEq] at *
  constructor
  · field_simp
    linear_combination (z * px * 2 - z * bw) * 2 * hrot
  · field_simp
    linear_combination z ^ 2 * (8 * py - 4 * bh) * hrot

/-- Witness for C1: a concrete camera (position `(3,4)`, zoom `2`,
rotation `(3/5, 4/5)`, viewport `900×600`) and screen point `(7,9)`. -/
theorem Transform_Unproject_roundtrip_witness :
    ((3 : ℚ)/5) ^ 2 + ((4 : ℚ)/5) ^ 2 = 1
  ∧ (2 : ℚ) ≠ 0
  ∧ Transform ⟨3, 4, 2, 3/5, 4/5, 900, 600⟩
      (Unproject ⟨3, 4, 2, 3/5, 4/5, 900, 600⟩ (7, 9)) = (7, 9) :=
  ⟨by norm_num, by norm_num,
    Transform_Unproject_roundtrip ⟨3, 4, 2, 3/5, 4/5, 900, 600⟩ (7, 9)
      (by norm_num) (by norm_num)⟩

/-- Claim C2. In the run-loop trace, within every iteration `i` the update
pass strictly precedes the draw pass and the draw pass strictly precedes
presentation (`window.Update`); and for any later iteration `j`, the
presentation of iteration `i` strictly precedes the update of iteration
`j` — the loop never begins a new update before the previous iteration's
draw and present have completed. -/
theorem update_draw_present_ordering (tc : Nat → Bool) (n i j : Nat)
    (hi : i < n) (hj : j < n) (hij : i < j) :
    Precedes (RunEventLoopTrace tc n) (.update i) (.draw i)
  ∧ Precedes (RunEventLoopTrace tc n) (.draw i) (.present i)
  ∧ Precedes (RunEventLoopTrace tc n) (.present i) (.update j) := by
  have hdecomp : ∀ m, m < n → ∃ t, RunEventLoopTrace tc n
      = RunEventLoopFrom tc 0 m ++ (FrameEvents (tc m) m ++ t) := by
    intro m hm
    obtain ⟨d, hd⟩ : ∃ d, n = m + (d + 1) := ⟨n - m - 1, by omega⟩
    refine ⟨RunEventLoopFrom tc (m + 1) d, ?_⟩
    rw [RunEventLoopTrace, hd, runFrom_split tc m 0 (d + 1)]
    simp [RunEventLoopFrom]
  obtain ⟨t, ht⟩ := hdecomp i hi
  refine ⟨?_, ?_, ?_⟩
  · rw [ht]
    exact precedes_append_right (precedes_append_left (frame_update_draw _ i))
  · rw [ht]
    exact precedes_append_right (precedes_append_left (frame_draw_present _ i))
  · obtain ⟨t2, ht2⟩ := hdecomp j hj
    rw [ht2]
    apply precedes_of_mem_mem
    · obtain ⟨d, hd⟩ : ∃ d, j = i + (d + 1) := ⟨j - i - 1, by omega⟩
      rw [hd, runFrom_split tc i 0 (d + 1)]
      simp only [Nat.zero_add, RunEventLoopFrom, List.mem_append]
      right; left
      exact mem_frame_present _ i
    · exact List.mem_append_left _ (mem_frame_update _ j)

/-- Witness for C2: a two-iteration loop with the title never changed;
update 0 before draw 0 before present 0 before update 1. -/
theorem update_draw_present_ordering_witness :
    Precedes (RunEventLoopTrace (fun _ => false) 2) (.update 0) (.draw 0)
  ∧ Precedes (RunEventLoopTrace (fun _ => false) 2) (.draw 0) (.present 0)
  ∧ Precedes (RunEventLoopTrace (fun _ => false) 2) (.present 0) (.update 1) :=
  update_draw_present_ordering (fun _ => false) 2 0 1
    (by decide) (by decide) (by decide)

/-- Claim C3. Pushing actors `A`, `B`, `C` into an empty scene and then
removing `B` yields the sequence `[A, C]` with result `true`;
`RemoveActor` returns `true` iff the argument is present, returns the
sequence unchanged when it reports `false`, and when the argument is
present it splices out exactly the first matching element, preserving the
relative order of all remaining elements. (The Go `RemoveHUD` is the
letter-for-letter HUD copy of this code.) -/
theorem RemoveActor_order_preserving {α : Type} [DecidableEq α]
    (A B C x : α) (l : List α) :
    RemoveActor (PushActors [] [A, B, C]) B = ([A, C], true)
  ∧ ((RemoveActor l x).2 = true ↔ x ∈ l)
  ∧ ((RemoveActor l x).2 = false → (RemoveActor l x).1 = l)
  ∧ (x ∈ l → ∃ l1 l2, l = l1 ++ x :: l2 ∧ x ∉ l1
      ∧ (RemoveActor l x).1 = l1 ++ l2) :=
  ⟨by simpa [PushActors] using RemoveActor_middle A B C,
   RemoveActor_found l x,
   RemoveActor_notfound l x,
   RemoveActor_splice l x⟩

/-- Witness for C3 at concrete actors `10, 20, 30` and removal target
`20` in `[10, 20, 30]`. -/
theorem RemoveActor_order_preserving_witness :
    RemoveActor (PushActors [] [10, 20, 30]) 20 = ([10, 30], true)
  ∧ ((RemoveActor [10, 20, 30] 20).2 = true ↔ (20 : Nat) ∈ [10, 20, 30])
  ∧ ((RemoveActor [10, 20, 30] 20).2 = false
      → (RemoveActor [10, 20, 30] 20).1 = [10, 20, 30])
  ∧ ((20 : Nat) ∈ [10, 20, 30] → ∃ l1 l2, [10, 20, 30] = l1 ++ 20 :: l2
      ∧ (20 : Nat) ∉ l1 ∧ (RemoveActor [10, 20, 30] 20).1 = l1 ++ l2) :=
  RemoveActor_order_preserving 10 20 30 20 [10, 20, 30]

/-- Claim C4. Every `Poll` call increments the in-progress frame counter;
only a `Poll` at which the one-second ticker has fired publishes the
accumulated counter as the FPS value and resets the counter; `GetFPS` is
unchanged by any run of tick-less `Poll` calls (so the published value
changes at most once per elapsed second); and after `n` tick-less polls
followed by the poll at which the second elapses, starting from a zeroed
counter, the published value equals the number of `Poll` calls made,
i.e. the previous full second's count. -/
theorem Poll_fps_cadence (w : FPSWatch) (n : Nat) (ts : List Bool) :
    ((Poll w false).frames = w.frames + 1 ∧ GetFPS (Poll w false) = GetFPS w)
  ∧ ((Poll w true).fps = w.frames + 1 ∧ (Poll w true).frames = 0)
  ∧ ((∀ t ∈ ts, t = false) → GetFPS (PollSeq w ts) = GetFPS w)
  ∧ GetFPS (PollSeq ⟨w.fps, 0⟩ (List.replicate n false ++ [true])) = n + 1 := by
  refine ⟨⟨rfl, rfl⟩, ⟨rfl, rfl⟩, ?_, ?_⟩
  · intro hall
    have h : ts = List.replicate ts.length false :=
      List.eq_replicate_iff.mpr ⟨rfl, hall⟩
    rw [h, PollSeq_replicate_false]
    rfl
  · rw [PollSeq_append, PollSeq_replicate_false]
    simp [PollSeq, Poll, GetFPS]

/-- Witness for C4 at a concrete watch state and a 60-poll second. -/
theorem Poll_fps_cadence_witness :
    ((Poll ⟨7, 3⟩ false).frames = 3 + 1 ∧ GetFPS (Poll ⟨7, 3⟩ false) = GetFPS ⟨7, 3⟩)
  ∧ ((Poll ⟨7, 3⟩ true).fps = 3 + 1 ∧ (Poll ⟨7, 3⟩ true).frames = 0)
  ∧ ((∀ t ∈ [false, false], t = false) → GetFPS (PollSeq ⟨7, 3⟩ [false, false]) = GetFPS ⟨7, 3⟩)
  ∧ GetFPS (PollSeq ⟨7, 0⟩ (List.replicate 59 false ++ [true])) = 59 + 1 :=
  Poll_fps_cadence ⟨7, 3⟩ 59 [false, false]

/-- Claim C5 is refuted: there is a mutex-valid interleaving of one
`_NextFrame` with an external `PushActors` in which the push lands
strictly between the update pass and the draw pass of the same frame —
`_Update` and `_Draw` each release the mutex on return, and `fpsw.Poll()`
and `window.Clear` run between them unlocked, so the full
update-then-draw pass is not atomic. -/
theorem push_between_update_and_draw_interleaving :
    CounterTrace ∈ interleavings SchedTrace ExtTrace
  ∧ mutexValid none CounterTrace = true
  ∧ pushBetweenPasses CounterTrace = true :=
  ⟨by decide, by decide, by decide⟩

set_option maxRecDepth 10000 in
/-- Claim C5, amended. In every mutex-valid interleaving of one
`_NextFrame` with an external `PushActors`, the push is performed while
the external thread itself owns the visualizer's mutex — so all mutation
of the scene sequences happens under the single mutex and each individual
pass (update pass, draw pass) is atomic with respect to the push, even
though the push may land between the two passes of one frame. -/
theorem mutex_per_pass_atomicity :
    ∀ T ∈ interleavings SchedTrace ExtTrace,
      mutexValid none T = true → pushUnderExtLock none T = true := by
  decide

set_option maxRecDepth 10000 in
/-- Witness for the amended C5: the interleaving in which `PushActors`
completes before the frame starts. -/
theorem mutex_per_pass_atomicity_witness :
    (ExtTrace ++ SchedTrace) ∈ interleavings SchedTrace ExtTrace
  ∧ mutexValid none (ExtTrace ++ SchedTrace) = true
  ∧ pushUnderExtLock none (ExtTrace ++ SchedTrace) = true :=
  ⟨by decide, by decide,
    mutex_per_pass_atomicity (ExtTrace ++ SchedTrace) (by decide) (by decide)⟩

/-- Claim C6. `Close` only sets the window's closed flag (leaving the
rest of the window state unchanged), and the run loop tests the flag only
at the top of each iteration: if a close is signalled during iteration `k`
(after that iteration's top-of-loop check) and no earlier close was
signalled, the loop's trace equals exactly the first `k + 1` full
iterations — the in-flight frame `k` completes its update, draw, present
and vsync wait — and no event of iteration `k + 1` (in particular no new
update) occurs. -/
theorem Close_cooperative_shutdown (tc s : Nat → Bool) (k fuel : Nat)
    (win : Window) (hk : s k = true)
    (hprev : ∀ i, i < k → s i = false) (hfuel : k < fuel) :
    Close win = { win with closed := true }
  ∧ RunClosableTrace tc s fuel = RunEventLoopTrace tc (k + 1)
  ∧ Ev.update k ∈ RunClosableTrace tc s fuel
  ∧ Ev.draw k ∈ RunClosableTrace tc s fuel
  ∧ Ev.present k ∈ RunClosableTrace tc s fuel
  ∧ Ev.vsyncWait k ∈ RunClosableTrace tc s fuel
  ∧ Ev.update (k + 1) ∉ RunClosableTrace tc s fuel := by
  have heq : RunClosableTrace tc s fuel = RunEventLoopTrace tc (k + 1) := by
    have h : RunClosableFrom tc s 0 fuel = RunEventLoopFrom tc 0 (k + 1 - 0) :=
      runClosable_eq hprev hk fuel 0 (by omega) (by omega)
    simpa [RunClosableTrace, RunEventLoopTrace] using h
  refine ⟨rfl, heq, ?_, ?_, ?_, ?_, ?_⟩
  · rw [heq]
    exact mem_loop_of_mem_frame
      (by cases htc : tc k <;> simp [FrameEvents, NextFrameEvents, htc])
  · rw [heq]
    exact mem_loop_of_mem_frame
      (by cases htc : tc k <;> simp [FrameEvents, NextFrameEvents, htc])
  · rw [heq]
    exact mem_loop_of_mem_frame
      (by cases htc : tc k <;> simp [FrameEvents, NextFrameEvents, htc])
  · rw [heq]
    exact mem_loop_of_mem_frame
      (by cases htc : tc k <;> simp [FrameEvents, NextFrameEvents, htc])
  · rw [heq]
    intro hmem
    have h : (0 : Nat) ≤ evFrame (Ev.update (k + 1)) ∧ evFrame (Ev.update (k + 1)) < 0 + (k + 1) :=
      evFrame_lt_of_mem_runFrom hmem
    simp [evFrame] at h

/-- Witness for C6: close signalled during iteration 1 of a loop with
fuel 4; the loop runs iterations 0 and 1 in full and no event of
iteration 2 occurs. -/
theorem Close_cooperative_shutdown_witness :
    Close ⟨false, "t"⟩ = { closed := true, title := "t" }
  ∧ RunClosableTrace (fun _ => false) (fun i => decide (i = 1)) 4
      = RunEventLoopTrace (fun _ => false) (1 + 1)
  ∧ Ev.update 1 ∈ RunClosableTrace (fun _ => false) (fun i => decide (i = 1)) 4
  ∧ Ev.draw 1 ∈ RunClosableTrace (fun _ => false) (fun i => decide (i = 1)) 4
  ∧ Ev.present 1 ∈ RunClosableTrace (fun _ => false) (fun i => decide (i = 1)) 4
  ∧ Ev.vsyncWait 1 ∈ RunClosableTrace (fun _ => false) (fun i => decide (i = 1)) 4
  ∧ Ev.update (1 + 1) ∉ RunClosableTrace (fun _ => false) (fun i => decide (i = 1)) 4 :=
  Close_cooperative_shutdown (fun _ => false) (fun i => decide (i = 1)) 1 4
    ⟨false, "t"⟩ (by decide) (by decide) (by decide)

/-- Claim C7. The update pass and the draw pass visit the same entities
in the same order: user world actors in insertion order, then the default
explosions actor, then user HUDs in insertion order, then the default
FPS-watch HUD; each default entity comes after all user entities of its
segment, and every world-space entity is visited before every HUD
entity. -/
theorem update_draw_same_traversal_order (nA nH : Nat) :
    updVisits (UpdateTrace nA nH) = drawVisits (DrawTrace nA nH)
  ∧ updVisits (UpdateTrace nA nH) = VisitOrder nA nH
  ∧ (∀ i j, i < j → j < nA →
      Precedes (VisitOrder nA nH) (.userActor i) (.userActor j))
  ∧ (∀ i, i < nA → Precedes (VisitOrder nA nH) (.userActor i) .explosions)
  ∧ (∀ i j, i < j → j < nH →
      Precedes (VisitOrder nA nH) (.userHud i) (.userHud j))
  ∧ (∀ j, j < nH → Precedes (VisitOrder nA nH) (.userHud j) .fpsWatch)
  ∧ (∀ e e2, e.isWorld = true → e2.isWorld = false →
      e ∈ VisitOrder nA nH → e2 ∈ VisitOrder nA nH →
      Precedes (VisitOrder nA nH) e e2) := by
  refine ⟨(updVisits_eq nA nH).trans (drawVisits_eq nA nH).symm,
    updVisits_eq nA nH, ?_, ?_, ?_, ?_, ?_⟩
  · intro i j hij hj
    rw [visitOrder_split]
    apply precedes_append_left
    apply precedes_append_left
    exact precedes_map_range _ hij hj
  · intro i hi
    rw [visitOrder_split]
    apply precedes_append_left
    apply precedes_of_mem_mem
    · exact List.mem_map_of_mem _ (List.mem_range.mpr hi)
    · simp
  · intro i j hij hj
    rw [visitOrder_split]
    apply precedes_append_right
    apply precedes_append_left
    exact precedes_map_range _ hij hj
  · intro j hj
    rw [visitOrder_split]
    apply precedes_append_right
    apply precedes_of_mem_mem
    · exact List.mem_map_of_mem _ (List.mem_range.mpr hj)
    · simp
  · intro e e2 hw hs hm hm2
    rw [visitOrder_split] at hm hm2 ⊢
    apply precedes_of_mem_mem
    · rcases List.mem_append.mp hm with h | h
      · exact h
      · exfalso
        rcases List.mem_append.mp h with h2 | h2
        · obtain ⟨v, _, rfl⟩ := List.mem_map.mp h2
          simp [Entity.isWorld] at hw
        · simp at h2
          subst h2
          simp [Entity.isWorld] at hw
    · rcases List.mem_append.mp hm2 with h | h
      · exfalso
        rcases List.mem_append.mp h with h2 | h2
        · obtain ⟨v, _, rfl⟩ := List.mem_map.mp h2
          simp [Entity.isWorld] at hs
        · simp at h2
          subst h2
          simp [Entity.isWorld] at hs
      · exact h

/-- Witness for C7 at two user actors and one user HUD, checking the
inner ordering guards at concrete indices. -/
theorem update_draw_same_traversal_order_witness :
    Precedes (VisitOrder 2 1) (.userActor 0) (.userActor 1)
  ∧ Precedes (VisitOrder 2 1) (.userActor 1) .explosions
  ∧ Precedes (VisitOrder 2 1) (.userHud 0) .fpsWatch
  ∧ Precedes (VisitOrder 2 1) .explosions (.userHud 0) :=
  ⟨(update_draw_same_traversal_order 2 1).2.2.1 0 1 (by decide) (by decide),
   (update_draw_same_traversal_order 2 1).2.2.2.1 1 (by decide),
   (update_draw_same_traversal_order 2 1).2.2.2.2.2.1 0 (by decide),
   (update_draw_same_traversal_order 2 1).2.2.2.2.2.2 .explosions (.userHud 0)
     (by decide) (by decide) (by decide) (by decide)⟩

/-- Claim C8, counterexample part: calling `PopActor` on the empty
sequence does not return normally — the Go code's index expression
`v.actors[len(v.actors)-1]` evaluates to `v.actors[-1]` and panics at run
time (modelled by `none`), so the empty-sequence case is not a silent
no-op. -/
theorem PopActor_empty_not_noop :
    PopActor ([] : List Nat) = none :=
  rfl

/-- Claim C8, amended. For every non-empty sequence, `PopActor` (and the
letter-for-letter HUD copy `PopHUD`) removes and returns the last —
most recently pushed — element, leaving the preceding elements unchanged
(the returned remainder followed by the returned element reassembles the
input); under the non-emptiness precondition the internal indexing is in
bounds, so the call returns normally. On the empty sequence the
precondition violation is a runtime panic (index out of range), not a
silent no-op and not a checked error. -/
theorem PopActor_pops_last {α : Type} (l : List α) (h : l ≠ []) :
    PopActor l = some (l.getLast h, l.dropLast)
  ∧ l.dropLast ++ [l.getLast h] = l := by
  constructor
  · simp [PopActor, List.getLast?_eq_getLast l h]
  · exact List.dropLast_append_getLast h

/-- Witness for C8 at the concrete sequence `[1, 2, 3]`. -/
theorem PopActor_pops_last_witness :
    PopActor [1, 2, 3] = some ((3 : Nat), [1, 2])
  ∧ [1, 2] ++ [3] = [1, 2, 3] := by
  have h := PopActor_pops_last [1, 2, 3] (by decide)
  simpa using h

/-- Claim C9. In the lazy-initialization trace, after the placeholder
loading frame exactly two warm-up frames are executed; the configured
initial zoom and rotation are applied only after both warm-up frames,
each as exactly one accumulation call on the camera (the complete list of
`Zoom` accumulation calls is `[z]` and of `Rotate` calls is `[r]`, with
zoom before rotate); in particular with the test configuration
`InitialZoomLevel = -1.0`, `InitialRotateDegree = -360` the camera
receives exactly one `Zoom(-1)` accumulation from its default state and
one `Rotate(-360)` accumulation. -/
theorem RunLazyInit_zoom_rotate_once (z r : ℚ) :
    zoomCalls (RunLazyInitTrace z r) = [z]
  ∧ rotateCalls (RunLazyInitTrace z r) = [r]
  ∧ ((RunLazyInitTrace z r).filter isWarmup).length = 2
  ∧ Precedes (RunLazyInitTrace z r) .loadingFrame (.warmupFrame 0)
  ∧ Precedes (RunLazyInitTrace z r) (.warmupFrame 0) (.warmupFrame 1)
  ∧ Precedes (RunLazyInitTrace z r) (.warmupFrame 1) (.camZoom z)
  ∧ Precedes (RunLazyInitTrace z r) (.warmupFrame 1) (.camRotate r)
  ∧ Precedes (RunLazyInitTrace z r) (.camZoom z) (.camRotate r)
  ∧ zoomCalls (RunLazyInitTrace (-1) (-360)) = [-1]
  ∧ rotateCalls (RunLazyInitTrace (-1) (-360)) = [-360] := by
  refine ⟨rfl, rfl, rfl,
    ⟨1, 2, by omega, rfl, rfl⟩,
    ⟨2, 3, by omega, rfl, rfl⟩,
    ⟨3, 5, by omega, rfl, rfl⟩,
    ⟨3, 6, by omega, rfl, rfl⟩,
    ⟨5, 6, by omega, rfl, rfl⟩,
    rfl, rfl⟩

/-- Claim C10. `Resume` polls the delta-time watch exactly once, before
invoking the `onResumed` callback; that poll consumes the interval that
elapsed since the watch's previous poll (i.e. the pause); consequently
the delta time computed at the top of the next run-loop iteration equals
`tNext - tResume` — it covers only the time since `Resume` and is
independent of the watch state before the pause, hence never includes the
pause duration. (`DtWatch` modelled from the spec.) -/
theorem Resume_consumes_pause_interval (w : DtWatch) (tResume tNext : ℚ) :
    ResumeTrace.count .dtPollR = 1
  ∧ Precedes ResumeTrace .dtPollR .onResumedCb
  ∧ (w.Dt tResume).1 = tResume - w.last
  ∧ (w.Dt tResume).2.last = tResume
  ∧ (w.Dt tResume).2.timeStarted = w.timeStarted
  ∧ PauseResumeNextDt w tResume tNext = tNext - tResume := by
  refine ⟨rfl, ⟨0, 1, by omega, rfl, rfl⟩, rfl, rfl, rfl, rfl⟩

end Visual

